import Mathlib

/-!
Verification of the `nap` primary/replica SQL routing library.

The Go source (`db.go`) is shallowly embedded: the logical database `DB`
holds the ordered list of physical handles (`Pdbs`) and the round-robin
selection counter (`count`, a `uint64` modelled as a `Nat` that wraps
modulo `2^64`).  External collaborator calls (the methods of the `SQLDB`
interface) are abstracted as function parameters, so a routing method
such as `Exec` is embedded as "apply the abstract per-handle operation
to the handle the Go code selects".  Stateful methods (those that touch
the counter) are embedded in state-passing style, returning the updated
`DB` together with their result.
-/

namespace Nap

/-- The modulus of Go's `uint64` arithmetic: `count` is a `uint64` field. -/
def U64 : Nat := 2 ^ 64

/-- Embeds the Go struct `DB`: `Pdbs []SQLDB` (ordered physical handles,
slot 0 the primary) and `count uint64` (the replica-selection counter).
`α` abstracts the physical handle type `SQLDB`. -/
structure DB (α : Type) where
  Pdbs : List α
  count : Nat
deriving DecidableEq

/-- Embeds `func (db *DB) replica(n int) int`: if `n <= 1` return `0`;
otherwise atomically increment `count` (wrapping, as `atomic.AddUint64`
does on a `uint64`) and return `1 + (newCount % (n-1))`.  Returns the
updated state together with the selected index. -/
def DB.replica (db : DB α) (n : Nat) : DB α × Nat :=
  if n ≤ 1 then (db, 0)
  else
    let c := (db.count + 1) % U64
    ({ db with count := c }, 1 + c % (n - 1))

/-- Embeds `func (db *DB) Replica() SQLDB`:
`db.Pdbs[db.replica(len(db.Pdbs))]`.  Out-of-range indexing (a Go panic)
is modelled by `Option`. -/
def DB.Replica (db : DB α) : DB α × Option α :=
  let r := db.replica db.Pdbs.length
  (r.1, db.Pdbs.get? r.2)

/-- Embeds the deprecated `func (db *DB) Slave() SQLDB`: `db.Replica()`. -/
def DB.Slave (db : DB α) : DB α × Option α :=
  db.Replica

/-- Embeds `func (db *DB) Primary() SQLDB`: `db.Pdbs[0]`. -/
def DB.Primary (db : DB α) : Option α :=
  db.Pdbs.get? 0

/-- Embeds the deprecated `func (db *DB) Master() SQLDB`: `db.Primary()`. -/
def DB.Master (db : DB α) : Option α :=
  db.Primary

/-- Embeds `func (db *DB) Driver() driver.Driver`: `db.Pdbs[0].Driver()`,
with the handle's `Driver` method abstracted as `driverF`. -/
def DB.Driver (db : DB α) (driverF : α → δ) : Option δ :=
  (db.Pdbs.get? 0).map driverF

/-- Embeds `func (db *DB) Begin()`: `db.Pdbs[0].Begin()`, the handle's
`Begin` method abstracted as `f`. -/
def DB.Begin (db : DB α) (f : α → β) : Option β :=
  (db.Pdbs.get? 0).map f

/-- Embeds `func (db *DB) BeginTx(ctx, opts)`: `db.Pdbs[0].BeginTx(ctx, opts)`;
the handle's `BeginTx` method, with `ctx` and `opts` already applied, is
abstracted as `f`. -/
def DB.BeginTx (db : DB α) (f : α → β) : Option β :=
  (db.Pdbs.get? 0).map f

/-- Embeds `func (db *DB) Exec(query, args...)`: `db.Pdbs[0].Exec(query, args...)`. -/
def DB.Exec (db : DB α) (f : α → β) : Option β :=
  (db.Pdbs.get? 0).map f

/-- Embeds `func (db *DB) ExecContext(ctx, query, args...)`:
`db.Pdbs[0].ExecContext(ctx, query, args...)`. -/
def DB.ExecContext (db : DB α) (f : α → β) : Option β :=
  (db.Pdbs.get? 0).map f

/-- Embeds `func (db *DB) Query(query, args...)`:
`db.Replica().Query(query, args...)`, the handle's `Query` method with
its arguments already applied abstracted as `q`. -/
def DB.Query (db : DB α) (q : α → β) : DB α × Option β :=
  let r := db.Replica
  (r.1, r.2.map q)

/-- Embeds `func (db *DB) QueryContext(ctx, query, args...)`:
`db.Replica().QueryContext(ctx, query, args...)`. -/
def DB.QueryContext (db : DB α) (q : α → β) : DB α × Option β :=
  let r := db.Replica
  (r.1, r.2.map q)

/-- Embeds `func (db *DB) QueryRow(query, args...)`:
`db.Replica().QueryRow(query, args...)`. -/
def DB.QueryRow (db : DB α) (q : α → β) : DB α × Option β :=
  let r := db.Replica
  (r.1, r.2.map q)

/-- Embeds `func (db *DB) QueryRowContext(ctx, query, args...)`:
`db.Replica().QueryRowContext(ctx, query, args...)`. -/
def DB.QueryRowContext (db : DB α) (q : α → β) : DB α × Option β :=
  let r := db.Replica
  (r.1, r.2.map q)

/-! ### The scatter executor and its error aggregation

`scatter` itself is defined in a file of the repository that only `db.go`
shows use of, so it is modelled from the specification's contract. -/

/-- The compound failure a scatter call can report: either the single
underlying failure propagated as-is, or, when two or more slots failed,
one compound failure preserving every underlying cause in slot order. -/
inductive ScatterError (ε : Type) where
  | single : ε → ScatterError ε
  | multi : List ε → ScatterError ε
deriving DecidableEq, Repr

/-- The list of underlying causes recoverable from a scatter failure. -/
def ScatterError.causes : ScatterError ε → List ε
  | .single e => [e]
  | .multi es => es

/-- Combines the failures collected from the slots, in slot order. -/
def aggregateErrors (es : List ε) : Option (ScatterError ε) :=
  match es with
  | [] => none
  | [e] => some (.single e)
  | es => some (.multi es)

/-- Modelled from the spec: `scatter` (defined outside `db.go`) runs the
operation `f` for every index `i < n` (each invocation is dispatched; `f i
= none` means index `i` succeeded, `some e` that it failed with cause `e`),
waits for all of them, and aggregates the failures: none fail ⇒ success;
exactly one fails ⇒ that failure as-is; two or more fail ⇒ one compound
failure preserving every cause. `n = 0` is a no-op success. -/
def scatter (n : Nat) (f : Nat → Option ε) : Option (ScatterError ε) :=
  aggregateErrors ((List.range n).filterMap f)

/-- The failure component of a fallible per-slot call (`nil`-or-error in Go). -/
def errOf : Except ε β → Option ε
  | .error e => some e
  | .ok _ => none

/-- The success component of a fallible per-slot call. -/
def okOf : Except ε β → Option β
  | .error _ => none
  | .ok b => some b

/-! ### Construction -/

/-- Embeds Go's `strings.Split(s, ";")` on the character-list view of the
string: every maximal (possibly empty) run between semicolons becomes one
segment; the empty string yields one empty segment. -/
def splitSemi : List Char → List (List Char)
  | [] => [[]]
  | c :: cs =>
    if c = ';' then [] :: splitSemi cs
    else
      match splitSemi cs with
      | [] => [[c]]
      | s :: ss => (c :: s) :: ss

/-- Embeds `func Open(driverName, dataSourceNames string) (*DB, error)`:
split `dataSourceNames` on `";"`, make one slot per segment, open each
segment's target via `scatter` (the external `sql.Open` with the driver
name already applied is abstracted as `openF`), and return the logical
database only when no open failed.  On overall success every slot holds
its opened handle, in segment order. -/
def Open (openF : List Char → Except ε α) (dataSourceNames : List Char) :
    Except (ScatterError ε) (DB α) :=
  let conns := splitSemi dataSourceNames
  match scatter conns.length
      (fun i => (conns.get? i).bind (fun c => errOf (openF c))) with
  | some e => .error e
  | none => .ok { Pdbs := conns.filterMap (fun c => okOf (openF c)), count := 0 }

/-! ### Fan-out operations on an open database -/

/-- Embeds `func (db *DB) Close() error`: scatter of `db.Pdbs[i].Close()`
over every slot, the handle's `Close` abstracted as `closeF`. -/
def DB.Close (db : DB α) (closeF : α → Option ε) : Option (ScatterError ε) :=
  scatter db.Pdbs.length (fun i => (db.Pdbs.get? i).bind closeF)

/-- Embeds `func (db *DB) Ping() error`: scatter of `db.Pdbs[i].Ping()`
over every slot. -/
def DB.Ping (db : DB α) (pingF : α → Option ε) : Option (ScatterError ε) :=
  scatter db.Pdbs.length (fun i => (db.Pdbs.get? i).bind pingF)

/-- Embeds `func (db *DB) PingContext(ctx) error`: scatter of
`db.Pdbs[i].PingContext(ctx)` over every slot. -/
def DB.PingContext (db : DB α) (pingF : α → Option ε) : Option (ScatterError ε) :=
  scatter db.Pdbs.length (fun i => (db.Pdbs.get? i).bind pingF)

/-- Embeds the struct `stmt` (the aggregated prepared statement): the
originating logical database and one per-slot prepared statement (`σ`)
per physical slot, in slot order. -/
structure Stmt (α σ : Type) where
  db : DB α
  stmts : List σ

/-- Embeds `func (db *DB) Prepare(query string) (Stmt, error)`: prepare
the query on every slot via `scatter` (the handle's `Prepare` with the
query already applied is abstracted as `prepF`); if any slot fails,
return the aggregated error and no statement; otherwise return the
aggregated statement holding every slot's prepared statement in order. -/
def DB.Prepare (db : DB α) (prepF : α → Except ε σ) :
    Except (ScatterError ε) (Stmt α σ) :=
  match scatter db.Pdbs.length
      (fun i => (db.Pdbs.get? i).bind (fun p => errOf (prepF p))) with
  | some e => .error e
  | none => .ok { db := db, stmts := db.Pdbs.filterMap (fun p => okOf (prepF p)) }

/-- Embeds `func (db *DB) PrepareContext(ctx, query) (Stmt, error)`: same
scatter pattern as `Prepare`, with the context-taking `PrepareContext`
of the handle (context and query applied) abstracted as `prepF`. -/
def DB.PrepareContext (db : DB α) (prepF : α → Except ε σ) :
    Except (ScatterError ε) (Stmt α σ) :=
  match scatter db.Pdbs.length
      (fun i => (db.Pdbs.get? i).bind (fun p => errOf (prepF p))) with
  | some e => .error e
  | none => .ok { db := db, stmts := db.Pdbs.filterMap (fun p => okOf (prepF p)) }

/-! ### Pool tuning

The Go setters loop over `db.Pdbs` sequentially, calling the handle's
setter (which returns nothing) on each slot; the slice itself is only
read.  Embedded as: the (unchanged) database state paired with the list
of handles the tuning call is issued to, in order. -/

/-- Embeds `func (db *DB) SetMaxIdleConns(n int)`. -/
def DB.SetMaxIdleConns (db : DB α) : DB α × List α :=
  (db, db.Pdbs)

/-- Embeds `func (db *DB) SetMaxOpenConns(n int)`. -/
def DB.SetMaxOpenConns (db : DB α) : DB α × List α :=
  (db, db.Pdbs)

/-- Embeds `func (db *DB) SetConnMaxLifetime(d time.Duration)`. -/
def DB.SetConnMaxLifetime (db : DB α) : DB α × List α :=
  (db, db.Pdbs)

/-! ### Repeated replica selection -/

/-- `k` successive calls of the replica selector, as the Go read path
performs them: returns the final state and the list of selected indices
in call order. -/
def selectRun (db : DB α) : Nat → DB α × List Nat
  | 0 => (db, [])
  | k + 1 =>
    let r := db.replica db.Pdbs.length
    let rest := selectRun r.1 k
    (rest.1, r.2 :: rest.2)

/-! ### Basic facts about the replica selector -/

theorem replica_of_le (db : DB α) {n : Nat} (h : n ≤ 1) :
    db.replica n = (db, 0) := by
  simp [DB.replica, h]

theorem replica_of_ge (db : DB α) {n : Nat} (h : 2 ≤ n) :
    db.replica n =
      ({ db with count := (db.count + 1) % U64 },
       1 + ((db.count + 1) % U64) % (n - 1)) := by
  simp [DB.replica]
  omega

theorem replica_pdbs (db : DB α) (n : Nat) :
    (db.replica n).1.Pdbs = db.Pdbs := by
  by_cases h : n ≤ 1
  · rw [replica_of_le db h]
  · rw [replica_of_ge db (by omega)]

theorem replica_idx_bounds (db : DB α) {n : Nat} (h : 2 ≤ n) :
    1 ≤ (db.replica n).2 ∧ (db.replica n).2 ≤ n - 1 := by
  rw [replica_of_ge db h]
  refine ⟨by omega, ?_⟩
  have := Nat.mod_lt ((db.count + 1) % U64) (y := n - 1) (by omega)
  omega

theorem Replica_fst (db : DB α) :
    db.Replica.1 = (db.replica db.Pdbs.length).1 := rfl

theorem Replica_snd (db : DB α) :
    db.Replica.2 = db.Pdbs.get? (db.replica db.Pdbs.length).2 := rfl

/-! ### Claim theorems -/

/-- Claim C1: the replica-selection function `DB.replica` returns index 0
when `n ≤ 1`, leaving the counter untouched; when `n ≥ 2` it first
increments the shared counter by one (as 64-bit wrapping addition, which
is what `atomic.AddUint64` performs) and then returns
`1 + (counter mod (n - 1))`, `counter` being the incremented value. -/
theorem C1_replica_selection (db : DB α) (n : Nat) :
    (n ≤ 1 → db.replica n = (db, 0)) ∧
    (2 ≤ n → db.replica n =
      ({ db with count := (db.count + 1) % U64 },
       1 + ((db.count + 1) % U64) % (n - 1))) :=
  ⟨fun h => replica_of_le db h, fun h => replica_of_ge db h⟩

/-- Witness for C1 at concrete inputs: one slot (index 0, counter kept)
and three slots with counter 5 (counter becomes 6, index `1 + 6 % 2 = 1`). -/
theorem C1_replica_selection_witness :
    DB.replica (⟨[10], 5⟩ : DB Nat) 1 = (⟨[10], 5⟩, 0) ∧
    DB.replica (⟨[10, 20, 30], 5⟩ : DB Nat) 3 = (⟨[10, 20, 30], 6⟩, 1) := by
  constructor
  · exact (C1_replica_selection (⟨[10], 5⟩ : DB Nat) 1).1 (by decide)
  · have h := (C1_replica_selection (⟨[10, 20, 30], 5⟩ : DB Nat) 3).2 (by decide)
    rw [h]
    decide

/-- Claim C2: `Exec`, `ExecContext`, `Begin` and `BeginTx` delegate
exactly to the physical handle in slot 0: whenever slot 0 holds handle
`p`, each of them returns the underlying call applied to `p` (and to no
other handle), and none of them alters the database state. -/
theorem C2_exec_begin_primary (db : DB α) (p : α)
    (h : db.Pdbs.get? 0 = some p) (f fc g gc : α → β) :
    db.Exec f = some (f p) ∧ db.ExecContext fc = some (fc p) ∧
    db.Begin g = some (g p) ∧ db.BeginTx gc = some (gc p) := by
  refine ⟨?_, ?_, ?_, ?_⟩ <;>
    simp only [DB.Exec, DB.ExecContext, DB.Begin, DB.BeginTx] <;>
    rw [h] <;> rfl

/-- Witness for C2: on a two-slot database the four primary-bound
operations all act on the slot-0 handle `5`. -/
theorem C2_exec_begin_primary_witness :
    DB.Exec (⟨[5, 7], 0⟩ : DB Nat) id = some (id 5) ∧
    DB.ExecContext (⟨[5, 7], 0⟩ : DB Nat) id = some (id 5) ∧
    DB.Begin (⟨[5, 7], 0⟩ : DB Nat) id = some (id 5) ∧
    DB.BeginTx (⟨[5, 7], 0⟩ : DB Nat) id = some (id 5) :=
  C2_exec_begin_primary (⟨[5, 7], 0⟩ : DB Nat) 5 rfl id id id id

/-- Claim C3: `Query`, `QueryContext`, `QueryRow` and `QueryRowContext`
all delegate to the slot chosen by the replica-selection function
`DB.replica` (applied to the slot count), both in the state they leave
behind and in the handle the underlying call is applied to; the chosen
index is 0 when there is at most a single slot and lies in `1..n-1`
when `n ≥ 2`. -/
theorem C3_query_routing (db : DB α) (q qc qr qrc : α → β) :
    (db.Query q =
      ((db.replica db.Pdbs.length).1,
       (db.Pdbs.get? (db.replica db.Pdbs.length).2).map q)) ∧
    (db.QueryContext qc =
      ((db.replica db.Pdbs.length).1,
       (db.Pdbs.get? (db.replica db.Pdbs.length).2).map qc)) ∧
    (db.QueryRow qr =
      ((db.replica db.Pdbs.length).1,
       (db.Pdbs.get? (db.replica db.Pdbs.length).2).map qr)) ∧
    (db.QueryRowContext qrc =
      ((db.replica db.Pdbs.length).1,
       (db.Pdbs.get? (db.replica db.Pdbs.length).2).map qrc)) ∧
    (db.Pdbs.length ≤ 1 → (db.replica db.Pdbs.length).2 = 0) ∧
    (2 ≤ db.Pdbs.length →
      1 ≤ (db.replica db.Pdbs.length).2 ∧
      (db.replica db.Pdbs.length).2 ≤ db.Pdbs.length - 1) := by
  refine ⟨rfl, rfl, rfl, rfl, fun h => ?_, fun h => replica_idx_bounds db h⟩
  rw [replica_of_le db h]

/-- Witness for C3 on a three-slot database with counter 0: all four
read operations route to the replica-selected slot (index `1 + 1 % 2 = 2`,
handle `30`), and the selected index is within `1..2`. -/
theorem C3_query_routing_witness :
    DB.Query (⟨[10, 20, 30], 0⟩ : DB Nat) id = (⟨[10, 20, 30], 1⟩, some 30) ∧
    DB.QueryContext (⟨[10, 20, 30], 0⟩ : DB Nat) id = (⟨[10, 20, 30], 1⟩, some 30) ∧
    DB.QueryRow (⟨[10, 20, 30], 0⟩ : DB Nat) id = (⟨[10, 20, 30], 1⟩, some 30) ∧
    DB.QueryRowContext (⟨[10, 20, 30], 0⟩ : DB Nat) id = (⟨[10, 20, 30], 1⟩, some 30) ∧
    1 ≤ (DB.replica (⟨[10, 20, 30], 0⟩ : DB Nat) 3).2 ∧
    (DB.replica (⟨[10, 20, 30], 0⟩ : DB Nat) 3).2 ≤ 2 ∧
    (DB.replica (⟨[10], 0⟩ : DB Nat) 1).2 = 0 := by
  have h := C3_query_routing (⟨[10, 20, 30], 0⟩ : DB Nat) id id id id
  obtain ⟨h1, h2, h3, h4, -, h6⟩ := h
  rw [h1, h2, h3, h4]
  have hb := h6 (by decide)
  have h0 := (C3_query_routing (⟨[10], 0⟩ : DB Nat) id id id id).2.2.2.2.1 (by decide)
  refine ⟨?_, ?_, ?_, ?_, hb.1, hb.2, h0⟩ <;> decide

/-- Claim C8 is refuted at a concrete input: on a two-slot database with
counter 0, calling `Replica` does not leave the logical database
unchanged — the selection counter advances to 1. -/
theorem C8_counterexample :
    (DB.Replica (⟨[10, 20], 0⟩ : DB Nat)).1 ≠ (⟨[10, 20], 0⟩ : DB Nat) := by
  decide

/-- Claim C8 (amended): `Replica` (and its deprecated alias `Slave`,
which is literally `Replica`) returns the Replica Selector's chosen
slot and never modifies the slot list; with at most one slot it is
fully side-effect free, but with two or more slots it advances the
shared selection counter by one (wrapping 64-bit increment) — selecting
a replica consumes one round-robin position. -/
theorem C8_replica_accessor (db : DB α) :
    db.Slave = db.Replica ∧
    db.Replica.1.Pdbs = db.Pdbs ∧
    db.Replica.2 = db.Pdbs.get? (db.replica db.Pdbs.length).2 ∧
    (db.Pdbs.length ≤ 1 → db.Replica.1 = db) ∧
    (2 ≤ db.Pdbs.length →
      db.Replica.1 = { db with count := (db.count + 1) % U64 }) := by
  refine ⟨rfl, ?_, rfl, fun h => ?_, fun h => ?_⟩
  · rw [Replica_fst, replica_pdbs]
  · rw [Replica_fst, replica_of_le db h]
  · rw [Replica_fst, replica_of_ge db h]

/-- Witness for C8 (amended) at concrete inputs: a one-slot database is
left unchanged, a two-slot database keeps its slots but has its counter
advanced from 0 to 1. -/
theorem C8_replica_accessor_witness :
    (DB.Replica (⟨[10], 0⟩ : DB Nat)).1 = (⟨[10], 0⟩ : DB Nat) ∧
    (DB.Replica (⟨[10, 20], 0⟩ : DB Nat)).1.Pdbs = [10, 20] ∧
    (DB.Replica (⟨[10, 20], 0⟩ : DB Nat)).1 = (⟨[10, 20], 1⟩ : DB Nat) := by
  refine ⟨(C8_replica_accessor (⟨[10], 0⟩ : DB Nat)).2.2.2.1 (by decide),
    (C8_replica_accessor (⟨[10, 20], 0⟩ : DB Nat)).2.1, ?_⟩
  have h := (C8_replica_accessor (⟨[10, 20], 0⟩ : DB Nat)).2.2.2.2 (by decide)
  rw [h]
  decide

/-- Claim C9: no public operation mutates the physical slot list
established at construction: the selector and every routing, accessor,
pool-tuning and prepare operation leaves `Pdbs` — its length and every
entry — exactly as it was.  (The remaining operations — `Primary`,
`Master`, `Driver`, `Exec`/`Begin` variants, `Ping`, `Close` — return no
database state at all in this embedding because the Go code only ever
reads the slice in them.) -/
theorem C9_slots_immutable (db : DB α) (q : α → β)
    (prepF prepCF : α → Except ε σ) :
    (∀ n, (db.replica n).1.Pdbs = db.Pdbs) ∧
    db.Replica.1.Pdbs = db.Pdbs ∧
    db.Slave.1.Pdbs = db.Pdbs ∧
    (db.Query q).1.Pdbs = db.Pdbs ∧
    (db.QueryContext q).1.Pdbs = db.Pdbs ∧
    (db.QueryRow q).1.Pdbs = db.Pdbs ∧
    (db.QueryRowContext q).1.Pdbs = db.Pdbs ∧
    db.SetMaxIdleConns.1 = db ∧
    db.SetMaxOpenConns.1 = db ∧
    db.SetConnMaxLifetime.1 = db ∧
    (∀ s, db.Prepare prepF = .ok s → s.db = db) ∧
    (∀ s, db.PrepareContext prepCF = .ok s → s.db = db) := by
  have hrep : ∀ n, (db.replica n).1.Pdbs = db.Pdbs := replica_pdbs db
  have hR : db.Replica.1.Pdbs = db.Pdbs := by rw [Replica_fst]; exact hrep _
  refine ⟨hrep, hR, hR, hR, hR, hR, hR, rfl, rfl, rfl, fun s hs => ?_, fun s hs => ?_⟩
  · unfold DB.Prepare at hs
    revert hs
    cases scatter db.Pdbs.length
        (fun i => (db.Pdbs.get? i).bind (fun p => errOf (prepF p))) with
    | none => intro hs; cases hs; rfl
    | some e => intro hs; cases hs
  · unfold DB.PrepareContext at hs
    revert hs
    cases scatter db.Pdbs.length
        (fun i => (db.Pdbs.get? i).bind (fun p => errOf (prepCF p))) with
    | none => intro hs; cases hs; rfl
    | some e => intro hs; cases hs

/-- Witness for C9 on a concrete two-slot database: selection, queries,
tuning and prepare all leave the slot list `[10, 20]` intact. -/
theorem C9_slots_immutable_witness :
    (DB.replica (⟨[10, 20], 0⟩ : DB Nat) 2).1.Pdbs = [10, 20] ∧
    (DB.Replica (⟨[10, 20], 0⟩ : DB Nat)).1.Pdbs = [10, 20] ∧
    (DB.Slave (⟨[10, 20], 0⟩ : DB Nat)).1.Pdbs = [10, 20] ∧
    (DB.Query (⟨[10, 20], 0⟩ : DB Nat) id).1.Pdbs = [10, 20] ∧
    (DB.QueryContext (⟨[10, 20], 0⟩ : DB Nat) id).1.Pdbs = [10, 20] ∧
    (DB.QueryRow (⟨[10, 20], 0⟩ : DB Nat) id).1.Pdbs = [10, 20] ∧
    (DB.QueryRowContext (⟨[10, 20], 0⟩ : DB Nat) id).1.Pdbs = [10, 20] ∧
    (DB.SetMaxIdleConns (⟨[10, 20], 0⟩ : DB Nat)).1 = (⟨[10, 20], 0⟩ : DB Nat) ∧
    (DB.SetMaxOpenConns (⟨[10, 20], 0⟩ : DB Nat)).1 = (⟨[10, 20], 0⟩ : DB Nat) ∧
    (DB.SetConnMaxLifetime (⟨[10, 20], 0⟩ : DB Nat)).1 = (⟨[10, 20], 0⟩ : DB Nat) ∧
    (⟨⟨[10, 20], 0⟩, [10, 20]⟩ : Stmt Nat Nat).db = (⟨[10, 20], 0⟩ : DB Nat) ∧
    (⟨⟨[10, 20], 0⟩, [10, 20]⟩ : Stmt Nat Nat).db = (⟨[10, 20], 0⟩ : DB Nat) := by
  have h := C9_slots_immutable (⟨[10, 20], 0⟩ : DB Nat) id
    (fun p => (Except.ok p : Except Unit Nat)) (fun p => (Except.ok p : Except Unit Nat))
  exact ⟨h.1 2, h.2.1, h.2.2.1, h.2.2.2.1, h.2.2.2.2.1, h.2.2.2.2.2.1,
    h.2.2.2.2.2.2.1, h.2.2.2.2.2.2.2.1, h.2.2.2.2.2.2.2.2.1,
    h.2.2.2.2.2.2.2.2.2.1,
    h.2.2.2.2.2.2.2.2.2.2.1 ⟨⟨[10, 20], 0⟩, [10, 20]⟩ rfl,
    h.2.2.2.2.2.2.2.2.2.2.2 ⟨⟨[10, 20], 0⟩, [10, 20]⟩ rfl⟩

/-! ### Facts about error aggregation and scatter -/

theorem aggregateErrors_eq_none {es : List ε} :
    aggregateErrors es = none ↔ es = [] := by
  cases es with
  | nil => simp [aggregateErrors]
  | cons e t => cases t <;> simp [aggregateErrors]

theorem aggregateErrors_causes {es : List ε} {err : ScatterError ε}
    (h : aggregateErrors es = some err) : err.causes = es := by
  cases es with
  | nil => simp [aggregateErrors] at h
  | cons e t =>
    cases t with
    | nil =>
      simp only [aggregateErrors, Option.some_inj] at h
      rw [← h]
      rfl
    | cons e' t' =>
      simp only [aggregateErrors, Option.some_inj] at h
      rw [← h]
      rfl

theorem aggregateErrors_of_ne_nil {es : List ε} (h : es ≠ []) :
    ∃ err, aggregateErrors es = some err ∧ err.causes = es := by
  cases hes : aggregateErrors es with
  | none => exact absurd (aggregateErrors_eq_none.mp hes) h
  | some err => exact ⟨err, rfl, aggregateErrors_causes hes⟩

theorem filterMap_range_get? (l : List γ) (g : γ → Option δ) :
    (List.range l.length).filterMap (fun i => (l.get? i).bind g) =
      l.filterMap g := by
  induction l with
  | nil => rfl
  | cons a t ih =>
    rw [List.length_cons, List.range_succ_eq_map, List.filterMap_cons,
      List.filterMap_map]
    have htail :
        (List.range t.length).filterMap
            ((fun i => ((a :: t).get? i).bind g) ∘ Nat.succ) =
          t.filterMap g := by
      rw [← ih]
      rfl
    cases hga : g a with
    | none => simpa [List.filterMap_cons, hga] using htail
    | some b => simpa [List.filterMap_cons, hga] using htail

/-- Scatter over the indices of a list, feeding each slot's element to
the per-slot failure function, aggregates exactly the failures of the
list's elements, in order. -/
theorem scatter_over_list (l : List γ) (g : γ → Option ε) :
    scatter l.length (fun i => (l.get? i).bind g) =
      aggregateErrors (l.filterMap g) := by
  rw [scatter, filterMap_range_get?]

theorem filterMap_range_eq_single {f : Nat → Option ε} {n i : Nat} {e : ε}
    (hi : i < n) (hfi : f i = some e)
    (hother : ∀ j, j < n → j ≠ i → f j = none) :
    (List.range n).filterMap f = [e] := by
  induction n with
  | zero => omega
  | succ n ih =>
    rw [List.range_succ, List.filterMap_append]
    by_cases hin : i = n
    · subst hin
      have hpre : (List.range i).filterMap f = [] := by
        rw [List.filterMap_eq_nil_iff]
        intro j hj
        rw [List.mem_range] at hj
        exact hother j (by omega) (by omega)
      rw [hpre]
      simp [List.filterMap_cons, hfi]
    · have hfn : f n = none := hother n (by omega) (fun h => hin h.symm)
      rw [ih (by omega) (fun j hj hne => hother j (by omega) hne)]
      simp [List.filterMap_cons, hfn]

/-- Claim C7: the scatter executor over `n` indexed operations reports
success exactly when no operation fails (in particular `n = 0` is a
no-op success); when exactly one operation fails it propagates that
failure as-is; when two or more fail it returns one compound failure;
and in every failing case the full ordered list of underlying causes is
recoverable via `ScatterError.causes`. -/
theorem C7_scatter_aggregation (n : Nat) (f : Nat → Option ε) :
    scatter 0 f = none ∧
    ((∀ i, i < n → f i = none) ↔ scatter n f = none) ∧
    (∀ i e, i < n → f i = some e → (∀ j, j < n → j ≠ i → f j = none) →
      scatter n f = some (.single e)) ∧
    (2 ≤ ((List.range n).filterMap f).length →
      scatter n f = some (.multi ((List.range n).filterMap f))) ∧
    (∀ err, scatter n f = some err →
      err.causes = (List.range n).filterMap f) := by
  refine ⟨rfl, ?_, ?_, ?_, ?_⟩
  · rw [scatter, aggregateErrors_eq_none, List.filterMap_eq_nil_iff]
    constructor
    · intro h i hi
      exact h i ((List.mem_range).mp hi)
    · intro h i hi
      exact h i ((List.mem_range).mpr hi)
  · intro i e hi hfi hother
    rw [scatter, filterMap_range_eq_single hi hfi hother]
    rfl
  · intro h2
    rw [scatter]
    cases hes : (List.range n).filterMap f with
    | nil => rw [hes] at h2; simp at h2
    | cons e t =>
      cases t with
      | nil => rw [hes] at h2; simp at h2
      | cons e' t' => rfl
  · intro err herr
    rw [scatter] at herr
    exact aggregateErrors_causes herr

/-- Witness for C7 at concrete inputs: three slots with no failure, with
exactly one failure (cause `5`, propagated as-is), and with two failures
(compound failure preserving causes `[1, 2]`, recoverable). -/
theorem C7_scatter_aggregation_witness :
    scatter 0 (fun _ => (none : Option Nat)) = none ∧
    scatter 3 (fun _ => (none : Option Nat)) = none ∧
    scatter 3 (fun i => if i = 1 then some 5 else none) =
      some (ScatterError.single 5) ∧
    scatter 3 (fun i => if i = 0 then none else some i) =
      some (ScatterError.multi [1, 2]) ∧
    (ScatterError.multi [1, 2]).causes = [1, 2] := by
  refine ⟨(C7_scatter_aggregation 0 (fun _ => (none : Option Nat))).1, ?_, ?_, ?_, ?_⟩
  · exact (C7_scatter_aggregation 3 (fun _ => (none : Option Nat))).2.1.mp
      (fun i _ => rfl)
  · exact (C7_scatter_aggregation 3
      (fun i => if i = 1 then some 5 else none)).2.2.1 1 5 (by decide) (by decide)
      (by decide)
  · have h := (C7_scatter_aggregation 3
      (fun i => if i = 0 then none else some i)).2.2.2.1 (by decide)
    rw [h]
    decide
  · have h := (C7_scatter_aggregation 3
      (fun i => if i = 0 then none else some i)).2.2.2.2
      (ScatterError.multi [1, 2]) (by decide)
    rw [h]
    decide

/-! ### Facts about splitting and construction -/

theorem splitSemi_ne_nil (s : List Char) : splitSemi s ≠ [] := by
  induction s with
  | nil => simp [splitSemi]
  | cons c cs ih =>
    rw [splitSemi]
    by_cases hc : c = ';'
    · simp [hc]
    · simp only [hc, if_false]
      cases h : splitSemi cs with
      | nil => simp
      | cons a t => simp

theorem splitSemi_length (s : List Char) :
    (splitSemi s).length = s.count ';' + 1 := by
  induction s with
  | nil => rfl
  | cons c cs ih =>
    rw [splitSemi]
    by_cases hc : c = ';'
    · simp [hc, List.count_cons, ih]
    · simp only [hc, if_false]
      cases h : splitSemi cs with
      | nil => exact absurd h (splitSemi_ne_nil cs)
      | cons a t =>
        rw [h] at ih
        simp only [List.length_cons] at ih ⊢
        simp [List.count_cons, hc, ih]

theorem length_filterMap_of_forall_isSome {f : γ → Option δ} {l : List γ}
    (h : ∀ a ∈ l, (f a).isSome) : (l.filterMap f).length = l.length := by
  induction l with
  | nil => rfl
  | cons a t ih =>
    have ha := h a (List.mem_cons_self a t)
    cases hfa : f a with
    | none => rw [hfa] at ha; cases ha
    | some b =>
      rw [List.filterMap_cons, hfa, List.length_cons, List.length_cons,
        ih (fun x hx => h x (List.mem_cons_of_mem a hx))]

theorem forall2_filterMap_ok {f : γ → Except ε δ} {l : List γ}
    (h : ∀ a ∈ l, errOf (f a) = none) :
    List.Forall₂ (fun a b => f a = .ok b) l
      (l.filterMap (fun a => okOf (f a))) := by
  induction l with
  | nil => exact List.Forall₂.nil
  | cons a t ih =>
    have ha := h a (List.mem_cons_self a t)
    cases hfa : f a with
    | error e => rw [hfa] at ha; exact absurd ha (by simp [errOf])
    | ok b =>
      rw [List.filterMap_cons, hfa]
      exact List.Forall₂.cons hfa (ih (fun x hx => h x (List.mem_cons_of_mem a hx)))

/-- Claim C4: `Open` splits the data-source string on `';'`, creating one
slot per segment; when every segment opens, it returns the logical
database whose slots are exactly the opened handles, segment by segment
in order (so the first segment's handle is the primary, in slot 0); when
any single segment fails to open, it returns an error — and the error
aggregates the failures of every segment, showing all opens were
attempted — and no database. -/
theorem C4_open_all_or_nothing (openF : List Char → Except ε α) (s : List Char) :
    ((∀ c ∈ splitSemi s, errOf (openF c) = none) →
      ∃ db, Open openF s = .ok db ∧ db.count = 0 ∧
        db.Pdbs.length = (splitSemi s).length ∧
        List.Forall₂ (fun c a => openF c = .ok a) (splitSemi s) db.Pdbs) ∧
    ((∃ c ∈ splitSemi s, errOf (openF c) ≠ none) →
      ∃ e, Open openF s = .error e ∧
        e.causes = (splitSemi s).filterMap (fun c => errOf (openF c))) := by
  constructor
  · intro hok
    have hsc : scatter (splitSemi s).length
        (fun i => ((splitSemi s).get? i).bind (fun c => errOf (openF c))) = none := by
      rw [scatter_over_list, aggregateErrors_eq_none, List.filterMap_eq_nil_iff]
      exact hok
    refine ⟨{ Pdbs := (splitSemi s).filterMap (fun c => okOf (openF c)), count := 0 },
      ?_, rfl, ?_, ?_⟩
    · rw [Open]
      rw [hsc]
    · exact length_filterMap_of_forall_isSome (fun c hc => by
        have := hok c hc
        cases hfc : openF c with
        | error e => rw [hfc] at this; exact absurd this (by simp [errOf])
        | ok a => simp [okOf, hfc])
    · exact forall2_filterMap_ok hok
  · intro ⟨c, hc, hbad⟩
    have hne : (splitSemi s).filterMap (fun c => errOf (openF c)) ≠ [] := by
      intro hnil
      exact hbad (List.filterMap_eq_nil_iff.mp hnil c hc)
    obtain ⟨err, herr, hcauses⟩ := aggregateErrors_of_ne_nil hne
    refine ⟨err, ?_, hcauses⟩
    rw [Open]
    rw [scatter_over_list, herr]

/-- Witness for C4 at the concrete input `"a;bad;c"`: when every segment
opens, `Open` yields the three-slot database in segment order; when the
middle segment fails, `Open` yields an error whose causes are exactly
the failures collected from all segments. -/
theorem C4_open_all_or_nothing_witness :
    (∃ db, Open (fun c => (Except.ok c : Except Nat (List Char)))
        ("a;bad;c".data) = .ok db ∧ db.count = 0 ∧
        db.Pdbs.length = (splitSemi "a;bad;c".data).length ∧
        List.Forall₂ (fun c a => (Except.ok c : Except Nat (List Char)) = .ok a)
          (splitSemi "a;bad;c".data) db.Pdbs) ∧
    (∃ e, Open (fun c => if c = "bad".data then (Except.error 7 : Except Nat (List Char))
          else .ok c) ("a;bad;c".data) = .error e ∧
        e.causes = (splitSemi "a;bad;c".data).filterMap
          (fun c => errOf (if c = "bad".data then (Except.error 7 : Except Nat (List Char))
            else .ok c))) := by
  constructor
  · exact (C4_open_all_or_nothing (fun c => (Except.ok c : Except Nat (List Char)))
      ("a;bad;c".data)).1 (fun c _ => rfl)
  · exact (C4_open_all_or_nothing
      (fun c => if c = "bad".data then (Except.error 7 : Except Nat (List Char)) else .ok c)
      ("a;bad;c".data)).2 ⟨"bad".data, by decide, by decide⟩

/-- Claim C10: a successful `Open` produces exactly one slot per
semicolon-separated segment — empty segments included, so the slot
count is the semicolon count plus one and is always at least 1 — and
therefore the slot-0 accessors `Primary`, `Driver`, `Begin` and `Exec`
never index out of bounds. -/
theorem C10_open_segments_safe (openF : List Char → Except ε α) (s : List Char)
    (db : DB α) (h : Open openF s = .ok db) (drF : α → δ) (f g : α → β) :
    db.Pdbs.length = (splitSemi s).length ∧
    (splitSemi s).length = s.count ';' + 1 ∧
    0 < db.Pdbs.length ∧
    db.Primary.isSome ∧ (db.Driver drF).isSome ∧
    (db.Begin f).isSome ∧ (db.Exec g).isSome := by
  rw [Open] at h
  rw [scatter_over_list] at h
  cases hagg : aggregateErrors ((splitSemi s).filterMap (fun c => errOf (openF c))) with
  | some e => rw [hagg] at h; cases h
  | none =>
    rw [hagg] at h
    cases h
    have hok : ∀ c ∈ splitSemi s, errOf (openF c) = none :=
      List.filterMap_eq_nil_iff.mp (aggregateErrors_eq_none.mp hagg)
    have hlen : ((splitSemi s).filterMap (fun c => okOf (openF c))).length =
        (splitSemi s).length :=
      length_filterMap_of_forall_isSome (fun c hc => by
        have := hok c hc
        cases hfc : openF c with
        | error e => rw [hfc] at this; exact absurd this (by simp [errOf])
        | ok a => simp [okOf, hfc])
    have hpos : 0 < ((splitSemi s).filterMap (fun c => okOf (openF c))).length := by
      rw [hlen, splitSemi_length]
      omega
    obtain ⟨p, hp⟩ : ∃ p,
        ((splitSemi s).filterMap (fun c => okOf (openF c))).get? 0 = some p := by
      cases hg : ((splitSemi s).filterMap (fun c => okOf (openF c))).get? 0 with
      | none => rw [List.get?_eq_none] at hg; omega
      | some p => exact ⟨p, rfl⟩
    exact ⟨hlen, splitSemi_length s, hpos,
      by simp only [DB.Primary]; rw [hp]; rfl,
      by simp only [DB.Driver]; rw [hp]; rfl,
      by simp only [DB.Begin]; rw [hp]; rfl,
      by simp only [DB.Exec]; rw [hp]; rfl⟩

/-- Witness for C10 at the concrete input `"a;b"`: `Open` succeeds with
two slots and the slot-0 accessors all return values. -/
theorem C10_open_segments_safe_witness :
    (⟨[['a'], ['b']], 0⟩ : DB (List Char)).Pdbs.length =
      (splitSemi "a;b".data).length ∧
    (splitSemi "a;b".data).length = ("a;b".data).count ';' + 1 ∧
    0 < (⟨[['a'], ['b']], 0⟩ : DB (List Char)).Pdbs.length ∧
    (⟨[['a'], ['b']], 0⟩ : DB (List Char)).Primary.isSome ∧
    ((⟨[['a'], ['b']], 0⟩ : DB (List Char)).Driver id).isSome ∧
    ((⟨[['a'], ['b']], 0⟩ : DB (List Char)).Begin id).isSome ∧
    ((⟨[['a'], ['b']], 0⟩ : DB (List Char)).Exec id).isSome :=
  C10_open_segments_safe (fun c => (Except.ok c : Except Nat (List Char)))
    ("a;b".data) ⟨[['a'], ['b']], 0⟩ rfl id id id

theorem Prepare_eq (db : DB α) (prepF : α → Except ε σ) :
    db.Prepare prepF =
      match aggregateErrors (db.Pdbs.filterMap (fun p => errOf (prepF p))) with
      | some e => .error e
      | none => .ok ⟨db, db.Pdbs.filterMap (fun p => okOf (prepF p))⟩ := by
  rw [DB.Prepare, scatter_over_list]

theorem PrepareContext_eq (db : DB α) (prepF : α → Except ε σ) :
    db.PrepareContext prepF =
      match aggregateErrors (db.Pdbs.filterMap (fun p => errOf (prepF p))) with
      | some e => .error e
      | none => .ok ⟨db, db.Pdbs.filterMap (fun p => okOf (prepF p))⟩ := by
  rw [DB.PrepareContext, scatter_over_list]

/-- Claim C6: `Prepare` and `PrepareContext` are all-or-nothing: if any
slot fails to prepare they return an error and no statement object; on
success the aggregated statement references the originating database
and holds exactly one per-slot prepared statement per physical slot, in
slot order. -/
theorem C6_prepare_all_or_nothing (db : DB α) (prepF prepCF : α → Except ε σ) :
    ((∀ p ∈ db.Pdbs, errOf (prepF p) = none) →
      ∃ s, db.Prepare prepF = .ok s ∧ s.db = db ∧
        s.stmts.length = db.Pdbs.length ∧
        List.Forall₂ (fun p st => prepF p = .ok st) db.Pdbs s.stmts) ∧
    ((∃ p ∈ db.Pdbs, errOf (prepF p) ≠ none) →
      ∃ e, db.Prepare prepF = .error e) ∧
    ((∀ p ∈ db.Pdbs, errOf (prepCF p) = none) →
      ∃ s, db.PrepareContext prepCF = .ok s ∧ s.db = db ∧
        s.stmts.length = db.Pdbs.length ∧
        List.Forall₂ (fun p st => prepCF p = .ok st) db.Pdbs s.stmts) ∧
    ((∃ p ∈ db.Pdbs, errOf (prepCF p) ≠ none) →
      ∃ e, db.PrepareContext prepCF = .error e) := by
  have hprep : ∀ (g : α → Except ε σ),
      ((∀ p ∈ db.Pdbs, errOf (g p) = none) →
        (match aggregateErrors (db.Pdbs.filterMap (fun p => errOf (g p))) with
          | some e => (.error e : Except (ScatterError ε) (Stmt α σ))
          | none => .ok ⟨db, db.Pdbs.filterMap (fun p => okOf (g p))⟩) =
          .ok ⟨db, db.Pdbs.filterMap (fun p => okOf (g p))⟩) := by
    intro g hok
    have : aggregateErrors (db.Pdbs.filterMap (fun p => errOf (g p))) = none := by
      rw [aggregateErrors_eq_none, List.filterMap_eq_nil_iff]
      exact hok
    rw [this]
  have herr : ∀ (g : α → Except ε σ), (∃ p ∈ db.Pdbs, errOf (g p) ≠ none) →
      ∃ e, (match aggregateErrors (db.Pdbs.filterMap (fun p => errOf (g p))) with
          | some e => (.error e : Except (ScatterError ε) (Stmt α σ))
          | none => .ok ⟨db, db.Pdbs.filterMap (fun p => okOf (g p))⟩) = .error e := by
    intro g ⟨p, hp, hbad⟩
    have hne : db.Pdbs.filterMap (fun p => errOf (g p)) ≠ [] := by
      intro hnil
      exact hbad (List.filterMap_eq_nil_iff.mp hnil p hp)
    obtain ⟨err, herr', -⟩ := aggregateErrors_of_ne_nil hne
    rw [herr']
    exact ⟨err, rfl⟩
  have hstmts : ∀ (g : α → Except ε σ), (∀ p ∈ db.Pdbs, errOf (g p) = none) →
      (db.Pdbs.filterMap (fun p => okOf (g p))).length = db.Pdbs.length := by
    intro g hok
    exact length_filterMap_of_forall_isSome (fun p hp => by
      have := hok p hp
      cases hfp : g p with
      | error e => rw [hfp] at this; exact absurd this (by simp [errOf])
      | ok st => simp [okOf, hfp])
  refine ⟨fun hok => ?_, fun hbad => ?_, fun hok => ?_, fun hbad => ?_⟩
  · exact ⟨⟨db, db.Pdbs.filterMap (fun p => okOf (prepF p))⟩,
      by rw [Prepare_eq]; exact hprep prepF hok, rfl,
      hstmts prepF hok, forall2_filterMap_ok hok⟩
  · obtain ⟨e, he⟩ := herr prepF hbad
    exact ⟨e, by rw [Prepare_eq]; exact he⟩
  · exact ⟨⟨db, db.Pdbs.filterMap (fun p => okOf (prepCF p))⟩,
      by rw [PrepareContext_eq]; exact hprep prepCF hok, rfl,
      hstmts prepCF hok, forall2_filterMap_ok hok⟩
  · obtain ⟨e, he⟩ := herr prepCF hbad
    exact ⟨e, by rw [PrepareContext_eq]; exact he⟩

/-- Witness for C6 on a concrete two-slot database: preparing with an
everywhere-successful per-slot call yields a statement with one entry
per slot in order, for both `Prepare` and `PrepareContext`; preparing
with a failing slot yields an error, for both. -/
theorem C6_prepare_all_or_nothing_witness :
    (∃ s, DB.Prepare (⟨[10, 20], 0⟩ : DB Nat)
        (fun p => (Except.ok (p + 1) : Except Unit Nat)) = .ok s ∧
      s.db = (⟨[10, 20], 0⟩ : DB Nat) ∧ s.stmts.length = 2 ∧
      List.Forall₂ (fun p st => (Except.ok (p + 1) : Except Unit Nat) = .ok st)
        [10, 20] s.stmts) ∧
    (∃ s, DB.PrepareContext (⟨[10, 20], 0⟩ : DB Nat)
        (fun p => (Except.ok (p + 1) : Except Unit Nat)) = .ok s ∧
      s.db = (⟨[10, 20], 0⟩ : DB Nat) ∧ s.stmts.length = 2 ∧
      List.Forall₂ (fun p st => (Except.ok (p + 1) : Except Unit Nat) = .ok st)
        [10, 20] s.stmts) ∧
    (∃ e, DB.Prepare (⟨[10, 20], 0⟩ : DB Nat)
        (fun p => if p = 20 then (Except.error () : Except Unit Nat)
          else .ok p) = .error e) ∧
    (∃ e, DB.PrepareContext (⟨[10, 20], 0⟩ : DB Nat)
        (fun p => if p = 20 then (Except.error () : Except Unit Nat)
          else .ok p) = .error e) := by
  have hok := C6_prepare_all_or_nothing (⟨[10, 20], 0⟩ : DB Nat)
    (fun p => (Except.ok (p + 1) : Except Unit Nat))
    (fun p => (Except.ok (p + 1) : Except Unit Nat))
  have hbad := C6_prepare_all_or_nothing (⟨[10, 20], 0⟩ : DB Nat)
    (fun p => if p = 20 then (Except.error () : Except Unit Nat) else .ok p)
    (fun p => if p = 20 then (Except.error () : Except Unit Nat) else .ok p)
  exact ⟨hok.1 (fun p _ => rfl), hok.2.2.1 (fun p _ => rfl),
    hbad.2.1 ⟨20, by decide, by decide⟩, hbad.2.2.2 ⟨20, by decide, by decide⟩⟩

/-! ### Round-robin coverage of repeated replica selection -/

theorem selectRun_spec (k : Nat) (db : DB α) (hn : 2 ≤ db.Pdbs.length) :
    (selectRun db k).1.Pdbs = db.Pdbs ∧
    (selectRun db k).2 = (List.range k).map
      (fun j => 1 + ((db.count + 1 + j) % U64) % (db.Pdbs.length - 1)) := by
  induction k generalizing db with
  | zero => exact ⟨rfl, rfl⟩
  | succ k ih =>
    simp only [selectRun]
    rw [replica_of_ge db hn]
    have hpd : ({ db with count := (db.count + 1) % U64 } : DB α).Pdbs = db.Pdbs := rfl
    obtain ⟨ih1, ih2⟩ := ih { db with count := (db.count + 1) % U64 } (by rw [hpd]; exact hn)
    refine ⟨ih1, ?_⟩
    rw [ih2, List.range_succ_eq_map, List.map_cons, List.map_map]
    show (1 + ((db.count + 1) % U64) % (db.Pdbs.length - 1)) ::
        List.map (fun j => 1 + (((db.count + 1) % U64 + 1 + j) % U64) %
          (db.Pdbs.length - 1)) (List.range k) =
      (1 + ((db.count + 1 + 0) % U64) % (db.Pdbs.length - 1)) ::
        List.map ((fun j => 1 + ((db.count + 1 + j) % U64) %
          (db.Pdbs.length - 1)) ∘ Nat.succ) (List.range k)
    congr 1
    apply List.map_congr_left
    intro j _
    simp only [Function.comp_apply]
    have h1 : (db.count + 1) % U64 + 1 + j = (db.count + 1) % U64 + (1 + j) := by
      omega
    rw [h1, Nat.mod_add_mod]
    have h2 : db.count + 1 + (1 + j) = db.count + 1 + Nat.succ j := by omega
    rw [h2]

theorem key_residue {b r d : Nat} (_hd : 0 < d) (hb : b < d) (hr : r < d) :
    (b + (r + d - b) % d) % d = r := by
  rw [Nat.add_comm b _, Nat.mod_add_mod, Nat.sub_add_cancel (by omega : b ≤ r + d),
    Nat.add_mod_right, Nat.mod_eq_of_lt hr]

theorem dvd_iff_mod_eq {k r d : Nat} (_hd : 0 < d) (hr : r < d) :
    d ∣ (k + d - r) ↔ k % d = r := by
  constructor
  · intro hdvd
    have hge : d ≤ k + d - r := Nat.le_of_dvd (by omega) hdvd
    have hkr : r ≤ k := by omega
    have h2 : d ∣ (k - r) := by
      have h3 := Nat.dvd_sub' hdvd (dvd_refl d)
      have heq : k + d - r - d = k - r := by omega
      rwa [heq] at h3
    obtain ⟨q, hq⟩ := h2
    have hk : k = d * q + r := by rw [← hq]; omega
    rw [hk, Nat.mul_add_mod, Nat.mod_eq_of_lt hr]
  · intro hmod
    have hkr : r ≤ k := hmod ▸ Nat.mod_le k d
    have h2 : d ∣ (k - r) := by
      have h3 := Nat.dvd_sub_mod (n := d) k
      rwa [hmod] at h3
    have heq : k + d - r = (k - r) + d := by omega
    rw [heq]
    exact Nat.dvd_add h2 (dvd_refl d)

theorem countP_range_mod (a d r : Nat) (hd : 0 < d) (hr : r < d) (k : Nat) :
    (List.range k).countP (fun j => decide ((a + j) % d = r)) =
      (k + (d - 1) - (r + d - a % d) % d) / d := by
  have hb : a % d < d := Nat.mod_lt a hd
  have hr' : (r + d - a % d) % d < d := Nat.mod_lt _ hd
  induction k with
  | zero =>
    simp only [List.range_zero, List.countP_nil]
    symm
    apply Nat.div_eq_of_lt
    omega
  | succ k ih =>
    rw [List.range_succ, List.countP_append, ih]
    have hsucc : k + 1 + (d - 1) - (r + d - a % d) % d =
        (k + (d - 1) - (r + d - a % d) % d) + 1 := by omega
    rw [hsucc, Nat.succ_div]
    have harg : (k + (d - 1) - (r + d - a % d) % d) + 1 =
        k + d - (r + d - a % d) % d := by omega
    have hiff : (d ∣ (k + (d - 1) - (r + d - a % d) % d) + 1) ↔ (a + k) % d = r := by
      rw [harg, dvd_iff_mod_eq hd hr']
      constructor
      · intro h
        calc (a + k) % d = (a % d + k % d) % d := Nat.add_mod a k d
          _ = (a % d + (r + d - a % d) % d) % d := by rw [h]
          _ = r := key_residue hd hb hr
      · intro h
        have h1 : a % d + k % d ≡ a % d + (r + d - a % d) % d [MOD d] := by
          show (a % d + k % d) % d = (a % d + (r + d - a % d) % d) % d
          rw [← Nat.add_mod a k d, h, key_residue hd hb hr]
        have h2 := Nat.ModEq.add_left_cancel' (a % d) h1
        have h3 : k % d % d = (r + d - a % d) % d % d := h2
        rwa [Nat.mod_eq_of_lt (Nat.mod_lt k hd), Nat.mod_eq_of_lt hr'] at h3
    simp only [List.countP_cons, List.countP_nil, Nat.zero_add]
    by_cases hc : (a + k) % d = r
    · simp [hc, hiff.mpr hc]
    · have hnd : ¬ d ∣ (k + (d - 1) - (r + d - a % d) % d) + 1 :=
        fun hdd => hc (hiff.mp hdd)
      simp [hc, hnd]

theorem countP_range_mod_bounds (a d r : Nat) (hd : 0 < d) (hr : r < d) (k : Nat) :
    k / d ≤ (List.range k).countP (fun j => decide ((a + j) % d = r)) ∧
    (List.range k).countP (fun j => decide ((a + j) % d = r)) ≤ k / d + 1 := by
  rw [countP_range_mod a d r hd hr k]
  have hr' : (r + d - a % d) % d < d := Nat.mod_lt _ hd
  constructor
  · exact Nat.div_le_div_right (by omega)
  · calc (k + (d - 1) - (r + d - a % d) % d) / d
        ≤ (k + d) / d := Nat.div_le_div_right (by omega)
      _ = k / d + 1 := Nat.add_div_right k hd

theorem count_map_one_add (l : List Nat) (g : Nat → Nat) (i : Nat) (hi : 1 ≤ i) :
    (l.map (fun j => 1 + g j)).count i =
      l.countP (fun j => decide (g j = i - 1)) := by
  rw [List.count_eq_countP, List.countP_map]
  apply List.countP_congr
  intro j _
  simp only [Function.comp]
  by_cases h : g j = i - 1
  · have h2 : 1 + g j = i := by omega
    have hb1 : ((1 + g j : Nat) == i) = true := by rw [h2]; exact beq_self_eq_true i
    have hb2 : decide (g j = i - 1) = true := by simp [h]
    rw [hb1, hb2]
  · have h2 : 1 + g j ≠ i := by omega
    have hb1 : ((1 + g j : Nat) == i) = false := by simp [h2]
    have hb2 : decide (g j = i - 1) = false := by simp [h]
    rw [hb1, hb2]

/-- Claim C5 is refuted at a concrete input: with 4 slots and the
selection counter at `2^64 - 2` (reachable after `2^64 - 2` selections,
since the `uint64` counter wraps), a run of two selections visits index
1 twice and index 2 never — the visit counts differ by 2, because
`n - 1 = 3` does not divide `2^64`. -/
theorem C5_counterexample :
    ¬ ((selectRun (⟨[10, 20, 30, 40], U64 - 2⟩ : DB Nat) 2).2.count 1 ≤
       (selectRun (⟨[10, 20, 30, 40], U64 - 2⟩ : DB Nat) 2).2.count 2 + 1) := by
  decide

/-- Claim C5 (amended): for `n ≥ 2` slots, repeated sequential replica
selection never returns index 0 — every visited index lies in `1..n-1` —
and over any run during which the 64-bit selection counter does not wrap
around, the visit counts of any two indices in `1..n-1` differ by at
most 1.  (Across a counter wraparound the uniformity bound can fail
when `n - 1` does not divide `2^64`.) -/
theorem C5_round_robin (db : DB α) (k : Nat) (hn : 2 ≤ db.Pdbs.length) :
    (∀ i ∈ (selectRun db k).2, 1 ≤ i ∧ i ≤ db.Pdbs.length - 1) ∧
    (db.count + k < U64 →
      ∀ i₁ i₂, 1 ≤ i₁ → i₁ ≤ db.Pdbs.length - 1 →
        1 ≤ i₂ → i₂ ≤ db.Pdbs.length - 1 →
        (selectRun db k).2.count i₁ ≤ (selectRun db k).2.count i₂ + 1) := by
  obtain ⟨-, hlist⟩ := selectRun_spec k db hn
  have hd : 0 < db.Pdbs.length - 1 := by omega
  constructor
  · intro i hi
    rw [hlist] at hi
    obtain ⟨j, -, hji⟩ := List.mem_map.mp hi
    have hlt := Nat.mod_lt ((db.count + 1 + j) % U64) hd
    omega
  · intro hnw i₁ i₂ h11 h12 h21 h22
    have hlist' : (selectRun db k).2 = (List.range k).map
        (fun j => 1 + (db.count + 1 + j) % (db.Pdbs.length - 1)) := by
      rw [hlist]
      apply List.map_congr_left
      intro j hj
      rw [List.mem_range] at hj
      have hsmall : db.count + 1 + j < U64 := by omega
      rw [Nat.mod_eq_of_lt hsmall]
    have hcount : ∀ i, 1 ≤ i → (selectRun db k).2.count i =
        (List.range k).countP
          (fun j => decide ((db.count + 1 + j) % (db.Pdbs.length - 1) = i - 1)) := by
      intro i hi
      rw [hlist']
      exact count_map_one_add (List.range k)
        (fun j => (db.count + 1 + j) % (db.Pdbs.length - 1)) i hi
    rw [hcount i₁ h11, hcount i₂ h21]
    have hb1 := countP_range_mod_bounds (db.count + 1) (db.Pdbs.length - 1)
      (i₁ - 1) hd (by omega) k
    have hb2 := countP_range_mod_bounds (db.count + 1) (db.Pdbs.length - 1)
      (i₂ - 1) hd (by omega) k
    omega

/-- Witness for C5 (amended) on a fresh three-slot database and a run of
five selections `[2, 1, 2, 1, 2]`: the element 2 of the run is within
`1..2`, and the visit counts of indices 1 and 2 differ by at most 1. -/
theorem C5_round_robin_witness :
    (1 ≤ 2 ∧ 2 ≤ Nat.sub (List.length ([10, 20, 30] : List Nat)) 1) ∧
    (selectRun (⟨[10, 20, 30], 0⟩ : DB Nat) 5).2.count 1 ≤
      (selectRun (⟨[10, 20, 30], 0⟩ : DB Nat) 5).2.count 2 + 1 := by
  have h := C5_round_robin (⟨[10, 20, 30], 0⟩ : DB Nat) 5 (by decide)
  refine ⟨h.1 2 ?_, h.2 (by decide) 1 2 (by decide) (by decide) (by decide) (by decide)⟩
  decide

end Nap
